import Mathlib

/-
  Verification development for the swim repository: a shallow embedding of
  the CertStream ingestion pipeline (message processing, batching, database
  persistence, rate limiting, and the query handlers), together with
  theorems settling the specification claims against that embedding.
-/

set_option autoImplicit false

namespace Swim

/-- JSON values as produced by the Go json package when decoding into a
dynamically typed value: objects become string-keyed maps, arrays become
slices, numbers become float64 values (modelled here as integers, since the
pipeline only converts them with int64), strings and booleans stay as they
are. -/
inductive JValue where
  | null
  | bool (b : Bool)
  | num (n : Int)
  | str (s : String)
  | arr (elems : List JValue)
  | obj (fields : List (String × JValue))

/-- A checked Go type assertion to a JSON object (map of string to value). -/
def JValue.asObj : JValue → Option (List (String × JValue))
  | .obj fields => some fields
  | _ => none

/-- A checked Go type assertion to a JSON array. -/
def JValue.asArr : JValue → Option (List JValue)
  | .arr elems => some elems
  | _ => none

/-- A checked Go type assertion to a string. -/
def JValue.asStr : JValue → Option String
  | .str s => some s
  | _ => none

/-- A checked Go type assertion to a number (float64 in the Go decoding). -/
def JValue.asNum : JValue → Option Int
  | .num n => some n
  | _ => none

/-- Map indexing in Go: a missing key yields the nil interface value. -/
def jget (fields : List (String × JValue)) (key : String) : Option JValue :=
  (fields.find? (fun p => p.1 == key)).map (fun p => p.2)

/-- The record extracted per bare domain, mirroring the DomainInfo struct of
the models package (field for field). -/
structure DomainInfo where
  ID : Int := 0
  Domain : String := ""
  IsApex : Bool := false
  ParentDomain : String := ""
  NotBefore : Int := 0
  NotAfter : Int := 0
  SerialNumber : String := ""
  Fingerprint : String := ""
  KeyUsage : String := ""
  ExtendedKeyUsage : String := ""
  SubjectKeyID : String := ""
  AuthorityKeyID : String := ""
  AuthorityInfo : String := ""
  SubjectAltName : String := ""
  CertificatePolicies : String := ""
  Wildcard : Bool := false
deriving DecidableEq

/-- The view entity returned by the subdomains endpoint. -/
structure DomainWithSubdomains where
  Domain : String
  Subdomains : List String
deriving DecidableEq

/-- Embedding of the Go call strings.HasPrefix s pre. -/
def goStartsWith (s pre : String) : Bool :=
  pre.data.isPrefixOf s.data

/-- Embedding of the Go call strings.TrimPrefix s pre. -/
def goTrimStart (s pre : String) : String :=
  if goStartsWith s pre then String.mk (s.data.drop pre.data.length) else s

/-- An unchecked Go type assertion to float64: on failure the goroutine
panics; the panic is modelled as an error value that aborts processing. -/
def expectNum (field : String) (v : Option JValue) : Except String Int :=
  match v.bind JValue.asNum with
  | some n => .ok n
  | none => .error ("interface conversion panic: " ++ field ++ " is not float64")

/-- An unchecked Go type assertion to string: on failure the goroutine
panics; the panic is modelled as an error value that aborts processing. -/
def expectStr (field : String) (v : Option JValue) : Except String String :=
  match v.bind JValue.asStr with
  | some s => .ok s
  | none => .error ("interface conversion panic: " ++ field ++ " is not string")

/-- A checked string extraction from the optional extensions object: a
missing or non-string field leaves the zero value (the empty string). -/
def extStr (extensions : Option (List (String × JValue))) (key : String) : String :=
  (((extensions.bind (fun e => jget e key))).bind JValue.asStr).getD ""

/-- The body of the loop over all_domains inside MessageProcessor
(certstream package): wildcard entries are recorded in the domainFlags map
and skipped; every other string entry yields one DomainInfo, whose
certificate fields are read with unchecked type assertions (not_before,
not_after, serial_number, fingerprint) and checked ones (extensions). -/
def extractDomains (leafCert : List (String × JValue)) :
    List JValue → List String → Except String (List DomainInfo)
  | [], _ => .ok []
  | domainInterface :: rest, domainFlags =>
    match domainInterface.asStr with
    | none => extractDomains leafCert rest domainFlags
    | some domain =>
      if goStartsWith domain "*." then
        extractDomains leafCert rest (goTrimStart domain "*." :: domainFlags)
      else do
        let notBefore ← expectNum "not_before" (jget leafCert "not_before")
        let notAfter ← expectNum "not_after" (jget leafCert "not_after")
        let serialNumber ← expectStr "serial_number" (jget leafCert "serial_number")
        let fingerprint ← expectStr "fingerprint" (jget leafCert "fingerprint")
        let extensions := (jget leafCert "extensions").bind JValue.asObj
        let info : DomainInfo :=
          { Domain := domain
            NotBefore := notBefore
            NotAfter := notAfter
            SerialNumber := serialNumber
            Fingerprint := fingerprint
            KeyUsage := extStr extensions "keyUsage"
            ExtendedKeyUsage := extStr extensions "extendedKeyUsage"
            SubjectKeyID := extStr extensions "subjectKeyIdentifier"
            AuthorityKeyID := extStr extensions "authorityKeyIdentifier"
            AuthorityInfo := extStr extensions "authorityInfoAccess"
            SubjectAltName := extStr extensions "subjectAltName"
            CertificatePolicies := extStr extensions "certificatePolicies"
            Wildcard := domainFlags.contains domain }
        let restRecords ← extractDomains leafCert rest domainFlags
        .ok (info :: restRecords)

/-- Processing of one decoded frame: navigate to data, then leaf_cert, then
all_domains, with checked assertions (a mismatch skips the frame and yields
no records); then run the extraction loop with an empty domainFlags map. -/
def processFrame (m : List (String × JValue)) : Except String (List DomainInfo) :=
  match (jget m "data").bind JValue.asObj with
  | none => .ok []
  | some data =>
    match (jget data "leaf_cert").bind JValue.asObj with
    | none => .ok []
    | some leafCert =>
      match (jget leafCert "all_domains").bind JValue.asArr with
      | none => .ok []
      | some domainsList => extractDomains leafCert domainsList []

/-- A raw frame taken from the rawMessages channel: either json.Unmarshal
fails (malformed JSON, or a frame that is not an object), or it yields a
string-keyed map. -/
inductive RawMessage where
  | malformed
  | parsed (m : List (String × JValue))

/-- The loop body of MessageProcessor: each frame is decoded and processed,
extracted records are appended to the running batch, and the batch is sent
downstream once its length reaches at least batchSize; when the channel
closes, a non-empty remaining batch is flushed. The worker carries the
current batch and the list of batches already sent. -/
def messageProcessorGo (batchSize : Nat) :
    List RawMessage → List DomainInfo → List (List DomainInfo) →
    Except String (List (List DomainInfo))
  | [], batch, sent =>
    .ok (if batch.isEmpty then sent else sent ++ [batch])
  | msg :: rest, batch, sent =>
    match msg with
    | .malformed => messageProcessorGo batchSize rest batch sent
    | .parsed m =>
      match processFrame m with
      | .error e => .error e
      | .ok recs =>
        let batch := batch ++ recs
        if batchSize ≤ batch.length then
          messageProcessorGo batchSize rest [] (sent ++ [batch])
        else
          messageProcessorGo batchSize rest batch sent

/-- MessageProcessor of the certstream package, run over the whole sequence
of raw frames delivered before the channel closed. -/
def MessageProcessor (rawMessages : List RawMessage) (batchSize : Nat) :
    Except String (List (List DomainInfo)) :=
  messageProcessorGo batchSize rawMessages [] []

/-- A leaf_cert object carrying the given all_domains entries and concrete
well-typed certificate fields. -/
def mkLeafCert (ds : List String) : List (String × JValue) :=
  [("all_domains", .arr (ds.map JValue.str)),
   ("not_before", .num 1700000000),
   ("not_after", .num 1710000000),
   ("serial_number", .str "04AB23"),
   ("fingerprint", .str "AA:BB:CC")]

/-- A well-formed certificate_update frame around mkLeafCert. -/
def mkFrame (ds : List String) : List (String × JValue) :=
  [("message_type", .str "certificate_update"),
   ("data", .obj [("leaf_cert", .obj (mkLeafCert ds))])]

/-- Splitting a character list at a separator, returning the first part and
the remaining parts; this is the semantics of the Go call strings.Split
(which always returns count(sep) + 1 parts, empty parts included). -/
def splitChar (sep : Char) : List Char → List Char × List (List Char)
  | [] => ([], [])
  | c :: cs =>
    let (p, ps) := splitChar sep cs
    if c = sep then ([], p :: ps) else (c :: p, ps)

/-- Embedding of the Go call strings.Split domain dot. -/
def goSplitDot (s : String) : List String :=
  let (p, ps) := splitChar '.' s.data
  (p :: ps).map String.mk

/-- Embedding of the Go call strings.Count domain dot. -/
def goCountDot (s : String) : Nat :=
  s.data.count '.'

/-- Embedding of the Go call strings.Join parts dot. -/
def goJoinDot : List String → String
  | [] => ""
  | [part] => part
  | part :: rest => part ++ "." ++ goJoinDot rest

/-- isApexDomain of the database package: a domain is apex when it contains
exactly one dot. -/
def isApexDomain (domain : String) : Bool :=
  goCountDot domain == 1

/-- getParentDomain of the database package: with more than two dot-separated
parts, the last two parts joined with a dot; otherwise the empty string. -/
def getParentDomain (domain : String) : String :=
  let parts := goSplitDot domain
  if parts.length > 2 then goJoinDot (parts.drop (parts.length - 2)) else ""

/-- The per-row preparation inside insertBatch: fill in IsApex and the
parent domain before the row values are bound to the INSERT statement. -/
def prepareRow (domainInfo : DomainInfo) : DomainInfo :=
  { domainInfo with
      IsApex := isApexDomain domainInfo.Domain
      ParentDomain := getParentDomain domainInfo.Domain }

/-- The domains table, modelled as its rows in insertion order. -/
abbrev Store := List DomainInfo

/-- One INSERT OR IGNORE execution against the UNIQUE domain column: when a
row with the same domain already exists the statement is a no-op, otherwise
the row is appended. -/
def insertOrIgnore (store : Store) (row : DomainInfo) : Store :=
  if store.any (fun r => r.Domain == row.Domain) then store else store ++ [row]

/-- insertBatch of the database package: every record of the batch is
prepared (apex flag, parent domain) and inserted with INSERT OR IGNORE. -/
def insertBatch (store : Store) (batch : List DomainInfo) : Store :=
  batch.foldl (fun s info => insertOrIgnore s (prepareRow info)) store

/-- Lookup of the unique row holding the given domain. -/
def findRow (store : Store) (d : String) : Option DomainInfo :=
  store.find? (fun r => r.Domain == d)

/-- Outcome of one retry attempt of DbInsertWorker, determined by the
database: the transaction may fail to begin, the batch insert may fail, the
commit may fail, or everything succeeds. -/
inductive TxResult where
  | beginError
  | insertError
  | commitError
  | success
deriving DecidableEq

/-- Observable actions of DbInsertWorker while handling one batch. -/
inductive WorkerEvent where
  | logBeginError
  | rolledBack
  | committed
  | logCommitError
  | logRetry (attempt : Nat)
  | sleepTwoSeconds
  | logFinalError
deriving DecidableEq

/-- The retry loop of DbInsertWorker, attempt by attempt (the remaining
counter mirrors the bound attempt < 3): a begin failure is logged and the
loop continues; an insert failure rolls the transaction back, logs the
retry with its error, sleeps two seconds and retries; on insert success the
transaction is committed (a commit error is only logged) and the loop
breaks. -/
def attemptsFrom (outcomes : Nat → TxResult) (attempt : Nat) :
    Nat → List WorkerEvent
  | 0 => []
  | remaining + 1 =>
    match outcomes attempt with
    | .beginError =>
      .logBeginError :: attemptsFrom outcomes (attempt + 1) remaining
    | .insertError =>
      .rolledBack :: .logRetry (attempt + 1) :: .sleepTwoSeconds ::
        attemptsFrom outcomes (attempt + 1) remaining
    | .commitError => [.logCommitError]
    | .success => [.committed]

/-- DbInsertWorker handling one batch taken from the domains channel. The
Go loop declares tx and err with a short variable declaration, so the err
examined after the loop is the enclosing one, which no statement of the
loop assigns; it therefore still holds nil when the final check runs. -/
def DbInsertWorkerBatch (outcomes : Nat → TxResult) : List WorkerEvent :=
  let loopEvents := attemptsFrom outcomes 0 3
  let outerErrIsNil := true
  loopEvents ++ (if outerErrIsNil then [] else [.logFinalError])

/-- Per-IP rate limiter state, mirroring visitData of the server package;
count is a Go int, a signed 64-bit integer on the gc amd64 target. -/
structure VisitData where
  count : Int
  lastUpdate : Int
deriving DecidableEq

/-- The smallest int64 value, which the gc amd64 code generator produces
when a float64 outside the int64 range is converted to int. -/
def minInt64 : Int := -9223372036854775808

/-- The exponential budget of the rate limiter, the Go expression
int(math.Pow(2, float64(count - 1))) on the gc amd64 target: for exponents
zero through 62 the float64 is the exact power of two and inside the int64
range, so the conversion is exact; from exponent 63 on the float64 (the
exact power up to exponent 1023, positive infinity beyond) exceeds the
largest int64 and the out-of-range conversion yields the smallest int64;
for negative exponents the float64 is a positive fraction below one,
truncated to zero. -/
def allowedCount (count : Int) : Int :=
  if count - 1 < 0 then 0
  else if count - 1 ≤ 62 then 2 ^ (count - 1).toNat
  else minInt64

/-- Outcome of the RateLimit middleware for one request. -/
inductive RateDecision where
  | admitted
  | rejected429
deriving DecidableEq

/-- RateLimit of the server package for one request of a single client IP:
with no entry, an entry with count one and the current instant is created
and the request admitted; an entry older than resetTime is reset the same
way; a count above the exponential budget is rejected with HTTP 429 and the
JSON body carrying the message Rate limit exceeded; otherwise the count is
incremented (lastUpdate untouched) and the request admitted. -/
def RateLimit (resetTime : Int) (entry : Option VisitData) (now : Int) :
    RateDecision × VisitData :=
  match entry with
  | none => (.admitted, ⟨1, now⟩)
  | some data =>
    if now - data.lastUpdate > resetTime then (.admitted, ⟨1, now⟩)
    else if data.count > allowedCount data.count then (.rejected429, data)
    else (.admitted, ⟨data.count + 1, data.lastUpdate⟩)

/-- A sequence of requests from one client IP at the given instants, run
through the RateLimit middleware starting from the given entry state. -/
def runRequests (resetTime : Int) : Option VisitData → List Int → List RateDecision
  | _, [] => []
  | entry, now :: rest =>
    let (decision, entry2) := RateLimit resetTime entry now
    decision :: runRequests resetTime (some entry2) rest

/-- ASCII lowercasing of one character, the case folding SQLite applies to
the LIKE operator by default. -/
def asciiLower (c : Char) : Char :=
  if 'A' ≤ c ∧ c ≤ 'Z' then Char.ofNat (c.toNat + 32) else c

/-- The SQLite condition domain LIKE the pattern www dot percent: the first
four characters match www. up to ASCII case. -/
def likeWwwDot (s : String) : Bool :=
  (s.data.take 4).map asciiLower == "www.".data

/-- The property the claim speaks about: the domain literally begins with
the four characters www followed by a dot. -/
def beginsWithWww (s : String) : Bool :=
  s.data.take 4 == "www.".data

/-- FetchDomainNamesFromDatabase of the database package: one page of the
domain column for rows whose is_apex flag is set and whose domain does not
match LIKE on the www-dot pattern, with OFFSET (page - 1) * size and LIMIT
size, read in stored row order. -/
def FetchDomainNamesFromDatabase (store : Store) (page size : Nat) : List String :=
  let offset := (page - 1) * size
  ((((store.filter (fun r => r.IsApex && !likeWwwDot r.Domain)).map
      (fun r => r.Domain)).drop offset).take size)

/-- Events written to an HTTP response, in write order. -/
inductive HttpEvent (α : Type) where
  | header (statusCode : Nat) (contentType : String)
  | bodyChunk (chunk : List α)
deriving DecidableEq

/-- StreamResponse of the server package: the content type and the 200
status are written first, then every chunk received from the data channel
is JSON-encoded onto the body in order. -/
def StreamResponse {α : Type} (dataChan : List (List α)) : List (HttpEvent α) :=
  HttpEvent.header 200 "application/json" :: dataChan.map HttpEvent.bodyChunk

/-- Lexicographic ordering of character lists by code point, the ordering
SQLite applies to a TEXT column under ORDER BY. -/
def charListLe : List Char → List Char → Bool
  | [], _ => true
  | _ :: _, [] => false
  | c :: cs, d :: ds =>
    if c.toNat < d.toNat then true
    else if d.toNat < c.toNat then false
    else charListLe cs ds

/-- Ordered insertion by the domain column, used to model ORDER BY domain. -/
def insertByDomain (r : DomainInfo) : List DomainInfo → List DomainInfo
  | [] => [r]
  | x :: xs =>
    if charListLe r.Domain.data x.Domain.data then r :: x :: xs
    else x :: insertByDomain r xs

/-- The rows of the store sorted by the domain column ascending. -/
def sortByDomain (store : Store) : List DomainInfo :=
  store.foldr insertByDomain []

/-- Modelled from the spec: the body of FetchCertUpdatesFromDatabase is not
under src (only its caller GetCertUpdatesHandler is); per the spec, the
cert-updates query returns one page of records ordered by domain ascending
with offset (page - 1) * size and limit size, materialized as a single
list before it is handed to the channel. -/
def FetchCertUpdatesFromDatabase (store : Store) (page size : Nat) : List DomainInfo :=
  ((sortByDomain store).drop ((page - 1) * size)).take size

/-- FetchDomainWithSubdomains of the database package: the rows whose
parent_domain column equals the requested domain. -/
def FetchDomainWithSubdomains (store : Store) (domain : String) : DomainWithSubdomains :=
  ⟨domain, (store.filter (fun r => r.ParentDomain == domain)).map (fun r => r.Domain)⟩

/-- GetDomainNamesHandler of the server package: a goroutine sends the full
result of the names query as one chunk on the channel and closes it; the
channel is drained through StreamResponse. -/
def GetDomainNamesHandler (store : Store) (page size : Nat) : List (HttpEvent String) :=
  StreamResponse [FetchDomainNamesFromDatabase store page size]

/-- GetCertUpdatesHandler of the server package: a goroutine sends the full
result of the cert-updates query as one chunk on the channel and closes it;
the channel is drained through StreamResponse. -/
def GetCertUpdatesHandler (store : Store) (page size : Nat) :
    List (HttpEvent DomainInfo) :=
  StreamResponse [FetchCertUpdatesFromDatabase store page size]

/-- GetSubdomainsHandler of the server package: a goroutine sends the
subdomain view as a one-element chunk on the channel and closes it; the
channel is drained through StreamResponse. -/
def GetSubdomainsHandler (store : Store) (domain : String) :
    List (HttpEvent DomainWithSubdomains) :=
  StreamResponse [[FetchDomainWithSubdomains store domain]]

/-- The record extractDomains builds for a bare domain of a mkFrame frame. -/
def mkRecordM (d : String) (wild : Bool) : DomainInfo :=
  { Domain := d, NotBefore := 1700000000, NotAfter := 1710000000,
    SerialNumber := "04AB23", Fingerprint := "AA:BB:CC", Wildcard := wild }

/-- The record sequence the extraction loop emits on a mkFrame frame, with
the running domainFlags map made explicit. -/
def emitListM : List String → List String → List DomainInfo
  | [], _ => []
  | d :: rest, flags =>
    if goStartsWith d "*." then emitListM rest (goTrimStart d "*." :: flags)
    else mkRecordM d (flags.contains d) :: emitListM rest flags

/-- The domainFlags map accumulated by the extraction loop over a list of
entries. -/
def collectFlagsM : List String → List String → List String
  | [], flags => flags
  | d :: rest, flags =>
    if goStartsWith d "*." then collectFlagsM rest (goTrimStart d "*." :: flags)
    else collectFlagsM rest flags

/-- The parent notion in the words of the claim: the last two dot-separated
labels of the domain joined with a dot. -/
def claimParentDomain (domain : String) : String :=
  let parts := goSplitDot domain
  goJoinDot (parts.drop (parts.length - 2))

/-- Joining character-level parts with a dot, the character-level image of
goJoinDot. -/
def charJoinDot : List (List Char) → List Char
  | [] => []
  | [part] => part
  | part :: rest => part ++ '.' :: charJoinDot rest

/-- The frame of claim C1: well-formed JSON, message_type and leaf_cert in
place, one bare domain in all_domains, but no not_before field. -/
def c1Frame : List (String × JValue) :=
  [("message_type", .str "certificate_update"),
   ("data", .obj [("leaf_cert", .obj
     [("all_domains", .arr [.str "example.com"]),
      ("serial_number", .str "04AB23")])])]

/-- The records one raw message contributes when its processing does not
panic: none for a malformed frame, the extracted records otherwise. -/
def okRecords : RawMessage → List DomainInfo
  | .malformed => []
  | .parsed m =>
    match processFrame m with
    | .ok recs => recs
    | .error _ => []

/-- The twentyfive apex domains of scenario S3, in alphabetical order. -/
def c8Names : List String :=
  ["d01.com", "d02.com", "d03.com", "d04.com", "d05.com",
   "d06.com", "d07.com", "d08.com", "d09.com", "d10.com",
   "d11.com", "d12.com", "d13.com", "d14.com", "d15.com",
   "d16.com", "d17.com", "d18.com", "d19.com", "d20.com",
   "d21.com", "d22.com", "d23.com", "d24.com", "d25.com"]

/-- A store of twentyfive apex rows in alphabetical order. -/
def c8Store : Store :=
  c8Names.map (fun n => { Domain := n, IsApex := true })

/-- The two-row store of the C9 counterexample. -/
def c9Store : Store :=
  [{ Domain := "b.com", IsApex := true }, { Domain := "a.com", IsApex := true }]

theorem processFrame_mkFrame (ds : List String) :
    processFrame (mkFrame ds) =
      extractDomains (mkLeafCert ds) (ds.map JValue.str) [] := rfl

theorem expectNum_mkLeafCert_notBefore (ds0 : List String) :
    expectNum "not_before" (jget (mkLeafCert ds0) "not_before") =
      .ok 1700000000 := rfl

theorem expectNum_mkLeafCert_notAfter (ds0 : List String) :
    expectNum "not_after" (jget (mkLeafCert ds0) "not_after") =
      .ok 1710000000 := rfl

theorem expectStr_mkLeafCert_serial (ds0 : List String) :
    expectStr "serial_number" (jget (mkLeafCert ds0) "serial_number") =
      .ok "04AB23" := rfl

theorem expectStr_mkLeafCert_fingerprint (ds0 : List String) :
    expectStr "fingerprint" (jget (mkLeafCert ds0) "fingerprint") =
      .ok "AA:BB:CC" := rfl

theorem extStr_mkLeafCert (ds0 : List String) (key : String) :
    extStr ((jget (mkLeafCert ds0) "extensions").bind JValue.asObj) key = "" := rfl

theorem extractDomains_mkLeafCert (ds0 : List String) (ds : List String)
    (flags : List String) :
    extractDomains (mkLeafCert ds0) (ds.map JValue.str) flags =
      .ok (emitListM ds flags) := by
  induction ds generalizing flags with
  | nil => rfl
  | cons d rest ih =>
    by_cases h : goStartsWith d "*."
    · simp only [List.map_cons, extractDomains, JValue.asStr, h, if_true, ih, emitListM]
    · simp only [List.map_cons, extractDomains, JValue.asStr, h, if_false, emitListM,
        expectNum_mkLeafCert_notBefore, expectNum_mkLeafCert_notAfter,
        expectStr_mkLeafCert_serial, expectStr_mkLeafCert_fingerprint, Bool.false_eq_true,
        extStr_mkLeafCert, ih, mkRecordM]
      rfl

theorem emitListM_append (xs ys flags : List String) :
    emitListM (xs ++ ys) flags =
      emitListM xs flags ++ emitListM ys (collectFlagsM xs flags) := by
  induction xs generalizing flags with
  | nil => rfl
  | cons d rest ih =>
    by_cases h : goStartsWith d "*." <;>
      simp [emitListM, collectFlagsM, h, ih]

theorem emitListM_length (xs : List String) (flags : List String) :
    (emitListM xs flags).length =
      (xs.filter (fun s => !goStartsWith s "*.")).length := by
  induction xs generalizing flags with
  | nil => rfl
  | cons d rest ih =>
    by_cases h : goStartsWith d "*." <;>
      simp [emitListM, List.filter, h, ih]

theorem collectFlagsM_mem (xs : List String) (flags : List String) (d : String) :
    d ∈ collectFlagsM xs flags ↔
      (∃ w ∈ xs, goStartsWith w "*." = true ∧ goTrimStart w "*." = d) ∨ d ∈ flags := by
  induction xs generalizing flags with
  | nil => simp [collectFlagsM]
  | cons w rest ih =>
    rw [collectFlagsM]
    by_cases h : goStartsWith w "*."
    · rw [if_pos h, ih]
      constructor
      · rintro (⟨v, hv, h1, h2⟩ | hf)
        · exact Or.inl ⟨v, List.mem_cons_of_mem w hv, h1, h2⟩
        · rcases List.mem_cons.mp hf with heq | hf2
          · exact Or.inl ⟨w, List.mem_cons_self w rest, h, heq.symm⟩
          · exact Or.inr hf2
      · rintro (⟨v, hv, h1, h2⟩ | hf)
        · rcases List.mem_cons.mp hv with rfl | hv2
          · exact Or.inr (List.mem_cons.mpr (Or.inl h2.symm))
          · exact Or.inl ⟨v, hv2, h1, h2⟩
        · exact Or.inr (List.mem_cons_of_mem _ hf)
    · rw [if_neg h, ih]
      constructor
      · rintro (⟨v, hv, h1, h2⟩ | hf)
        · exact Or.inl ⟨v, List.mem_cons_of_mem w hv, h1, h2⟩
        · exact Or.inr hf
      · rintro (⟨v, hv, h1, h2⟩ | hf)
        · rcases List.mem_cons.mp hv with rfl | hv2
          · exact absurd h1 (by simp [h])
          · exact Or.inl ⟨v, hv2, h1, h2⟩
        · exact Or.inr hf

theorem emitListM_bare (xs : List String) (flags : List String) :
    ∀ r ∈ emitListM xs flags, goStartsWith r.Domain "*." = false := by
  induction xs generalizing flags with
  | nil => intro r hr; cases hr
  | cons d rest ih =>
    intro r hr
    by_cases h : goStartsWith d "*."
    · rw [emitListM, if_pos h] at hr
      exact ih _ r hr
    · rw [emitListM, if_neg h] at hr
      rcases List.mem_cons.mp hr with rfl | hr
      · simpa [mkRecordM] using h
      · exact ih _ r hr

theorem splitChar_snd_length (sep : Char) (cs : List Char) :
    ((splitChar sep cs).2).length = cs.count sep := by
  induction cs with
  | nil => rfl
  | cons c rest ih =>
    rw [splitChar]
    by_cases h : c = sep
    · simp [h, List.count_cons, ih]
    · simp [h, List.count_cons, ih]

theorem goSplitDot_length (s : String) :
    (goSplitDot s).length = goCountDot s + 1 := by
  rw [goSplitDot, goCountDot]
  simp [splitChar_snd_length]

theorem isApexDomain_iff (d : String) :
    isApexDomain d = true ↔ (goSplitDot d).length = 2 := by
  rw [isApexDomain, goSplitDot_length, beq_iff_eq]
  omega

theorem goJoinDot_map_mk (parts : List (List Char)) :
    goJoinDot (parts.map String.mk) = String.mk (charJoinDot parts) := by
  induction parts with
  | nil => rfl
  | cons p rest ih =>
    cases rest with
    | nil => rfl
    | cons q qs =>
      show String.mk p ++ "." ++ goJoinDot ((q :: qs).map String.mk) = _
      rw [ih]
      apply String.ext
      simp [charJoinDot]

theorem charJoinDot_splitChar (cs : List Char) :
    charJoinDot ((splitChar '.' cs).1 :: (splitChar '.' cs).2) = cs := by
  induction cs with
  | nil => rfl
  | cons c rest ih =>
    rw [splitChar]
    by_cases h : c = '.'
    · subst h
      simp only [if_pos rfl]
      show ([] : List Char) ++ '.' ::
        charJoinDot ((splitChar '.' rest).1 :: (splitChar '.' rest).2) = _
      rw [ih]
      rfl
    · simp only [if_neg h]
      rcases hsnd : (splitChar '.' rest).2 with _ | ⟨q, qs⟩
      · show charJoinDot [c :: (splitChar '.' rest).1] = c :: rest
        rw [hsnd] at ih
        simp only [charJoinDot] at ih ⊢
        rw [ih]
      · show charJoinDot ((c :: (splitChar '.' rest).1) :: q :: qs) = c :: rest
        rw [hsnd] at ih
        simp only [charJoinDot] at ih ⊢
        rw [List.cons_append, ih]

theorem goJoinDot_goSplitDot (s : String) : goJoinDot (goSplitDot s) = s := by
  rw [goSplitDot]
  show goJoinDot (((splitChar '.' s.data).1 :: (splitChar '.' s.data).2).map String.mk) = s
  rw [goJoinDot_map_mk, charJoinDot_splitChar]

theorem charJoinDot_drop_suffix (parts : List (List Char)) (k : Nat) :
    List.IsSuffix (charJoinDot (parts.drop k)) (charJoinDot parts) := by
  induction parts generalizing k with
  | nil => simp
  | cons p rest ih =>
    cases k with
    | zero => exact List.suffix_refl _
    | succ k =>
      show List.IsSuffix (charJoinDot (rest.drop k)) (charJoinDot (p :: rest))
      refine (ih k).trans ?_
      cases rest with
      | nil => simp [charJoinDot]
      | cons q qs =>
        show List.IsSuffix (charJoinDot (q :: qs)) (p ++ '.' :: charJoinDot (q :: qs))
        exact ⟨p ++ ['.'], by simp⟩

theorem getParentDomain_suffix (d : String) :
    List.IsSuffix (getParentDomain d).data d.data := by
  rw [getParentDomain]
  by_cases h : (goSplitDot d).length > 2
  · rw [if_pos h]
    have hs := charJoinDot_drop_suffix ((splitChar '.' d.data).1 :: (splitChar '.' d.data).2)
      ((goSplitDot d).length - 2)
    rw [charJoinDot_splitChar] at hs
    have hd : (goSplitDot d).drop ((goSplitDot d).length - 2) =
        ((((splitChar '.' d.data).1 :: (splitChar '.' d.data).2)).drop
          ((goSplitDot d).length - 2)).map String.mk := by
      rw [goSplitDot, List.map_drop]
    rw [hd, goJoinDot_map_mk]
    exact hs
  · rw [if_neg h]
    exact List.nil_suffix

/-- C1: processing is not total. On a frame whose leaf_cert lacks
not_before, the unchecked float64 type assertion fails, so the processor
goroutine panics and the pipeline aborts instead of logging and skipping
the frame. -/
theorem claim_C1_processor_panics_on_missing_not_before :
    processFrame c1Frame =
      .error "interface conversion panic: not_before is not float64" ∧
    MessageProcessor [.parsed c1Frame] 1000 =
      .error "interface conversion panic: not_before is not float64" :=
  ⟨rfl, rfl⟩

/-- C2 counterexample: a frame whose all_domains lists the bare domain
before its wildcard form. The list contains the wildcard entry, yet the
emitted record carries wildcard false, because the single pass over the
list only flags domains whose wildcard entry appeared earlier. -/
theorem claim_C2_counterexample :
    (processFrame (mkFrame ["example.com", "*.example.com"])).map
        (fun recs => recs.map (fun r => (r.Domain, r.Wildcard))) =
      .ok [("example.com", false)] ∧
    "*.example.com" ∈ ["example.com", "*.example.com"] :=
  ⟨rfl, by decide⟩

/-- C2 amended: for a frame over any entry list, the record emitted for an
occurrence of a bare domain d has wildcard true exactly when some entry of
the form star-dot-d occurs strictly before that occurrence (so a frame with
only d yields wildcard false, and the order of d and its wildcard form
matters); entries starting with star-dot never produce records of their
own. -/
theorem claim_C2_amended (pre post : List String) (d : String)
    (hd : goStartsWith d "*." = false) :
    ∃ front mid back,
      processFrame (mkFrame (pre ++ d :: post)) = .ok (front ++ mid :: back) ∧
      front.length = (pre.filter (fun s => !goStartsWith s "*.")).length ∧
      mid.Domain = d ∧
      (mid.Wildcard = true ↔
        ∃ w ∈ pre, goStartsWith w "*." = true ∧ goTrimStart w "*." = d) ∧
      (∀ r ∈ front ++ mid :: back, goStartsWith r.Domain "*." = false) := by
  refine ⟨emitListM pre [], mkRecordM d ((collectFlagsM pre []).contains d),
    emitListM post (collectFlagsM pre []), ?_, emitListM_length pre [], rfl, ?_, ?_⟩
  · rw [processFrame_mkFrame, extractDomains_mkLeafCert, emitListM_append]
    rw [emitListM, if_neg (by simp [hd])]
  · show ((collectFlagsM pre []).contains d) = true ↔ _
    simp only [List.contains, List.elem_eq_mem, decide_eq_true_eq]
    rw [collectFlagsM_mem]
    simp
  · intro r hr
    rcases List.mem_append.mp hr with hr | hr
    · exact emitListM_bare pre [] r hr
    · rcases List.mem_cons.mp hr with rfl | hr
      · simpa [mkRecordM] using hd
      · exact emitListM_bare post _ r hr

/-- C2 amended, witnessed at a concrete frame: with entry list containing
the wildcard form first and the bare domain second, the record for the
bare domain is emitted with the stated wildcard characterization. -/
theorem claim_C2_amended_witness :
    ∃ front mid back,
      processFrame (mkFrame (["*.a.com"] ++ "a.com" :: [])) = .ok (front ++ mid :: back) ∧
      front.length = ((["*.a.com"] : List String).filter
        (fun s => !goStartsWith s "*.")).length ∧
      mid.Domain = "a.com" ∧
      (mid.Wildcard = true ↔
        ∃ w ∈ (["*.a.com"] : List String),
          goStartsWith w "*." = true ∧ goTrimStart w "*." = "a.com") ∧
      (∀ r ∈ front ++ mid :: back, goStartsWith r.Domain "*." = false) :=
  claim_C2_amended ["*.a.com"] [] "a.com" (by decide)

/-- C3 counterexample: with batchSize two, a first frame contributing three
records makes the processor emit a batch of three (the length check runs
only once per frame), followed by a final batch of one; the non-final batch
does not have size exactly two. -/
theorem claim_C3_counterexample :
    (MessageProcessor
        [.parsed (mkFrame ["a.com", "b.com", "c.com"]), .parsed (mkFrame ["d.com"])]
        2).map (fun out => out.map List.length) = .ok [3, 1] ∧ (3 : Nat) ≠ 2 :=
  ⟨rfl, by decide⟩

theorem messageProcessorGo_spec (bs : Nat) (hbs : 0 < bs) :
    ∀ (msgs : List RawMessage) (batch : List DomainInfo)
      (sent out : List (List DomainInfo)),
      messageProcessorGo bs msgs batch sent = .ok out →
      ∃ fresh, out = sent ++ fresh ∧
        fresh.flatten = batch ++ (msgs.map okRecords).flatten ∧
        (∀ b ∈ fresh.dropLast, bs ≤ b.length) ∧
        (∀ b ∈ fresh, b ≠ []) := by
  intro msgs
  induction msgs with
  | nil =>
    intro batch sent out h
    simp only [messageProcessorGo] at h
    by_cases hb : batch.isEmpty
    · rw [if_pos hb] at h
      refine ⟨[], by simpa using (Except.ok.inj h).symm, ?_, by simp, by simp⟩
      simp [List.isEmpty_iff.mp hb]
    · rw [if_neg hb] at h
      refine ⟨[batch], by simpa using (Except.ok.inj h).symm, by simp, by simp, ?_⟩
      simpa using List.isEmpty_iff.not.mp hb
  | cons msg rest ih =>
    intro batch sent out h
    match hmsg : msg with
    | .malformed =>
      obtain ⟨fresh, h1, h2, h3, h4⟩ := ih batch sent out h
      exact ⟨fresh, h1, by simpa [okRecords] using h2, h3, h4⟩
    | .parsed m =>
      rw [messageProcessorGo] at h
      match hpf : processFrame m with
      | .error e => rw [hpf] at h; cases h
      | .ok recs =>
        rw [hpf] at h
        simp only at h
        by_cases hfull : bs ≤ (batch ++ recs).length
        · rw [if_pos hfull] at h
          obtain ⟨fresh, h1, h2, h3, h4⟩ := ih [] (sent ++ [batch ++ recs]) out h
          refine ⟨(batch ++ recs) :: fresh, by simpa using h1, ?_, ?_, ?_⟩
          · simp only [List.flatten_cons, h2, List.nil_append, List.map_cons, okRecords, hpf]
            simp
          · intro b hb
            cases fresh with
            | nil => simp at hb
            | cons f fs =>
              rw [List.dropLast_cons₂] at hb
              rcases List.mem_cons.mp hb with rfl | hb2
              · exact hfull
              · exact h3 b hb2
          · intro b hb
            rcases List.mem_cons.mp hb with rfl | hb2
            · intro hnil
              rw [hnil] at hfull
              simp at hfull
              omega
            · exact h4 b hb2
        · rw [if_neg hfull] at h
          obtain ⟨fresh, h1, h2, h3, h4⟩ := ih (batch ++ recs) sent out h
          refine ⟨fresh, h1, ?_, h3, h4⟩
          simp only [h2, List.map_cons, okRecords, hpf, List.flatten_cons, List.append_assoc]

/-- C3 amended: when the processor finishes without panicking, nothing is
lost (the emitted batches concatenate to exactly the records of all frames,
the last batch flushing whatever remained in the buffer when the channel
closed), every batch is non-empty, and every non-final batch has size at
least batchSize; the size is not exactly batchSize, because the length
check runs once per frame and a frame may contribute several records. -/
theorem claim_C3_amended (bs : Nat) (msgs : List RawMessage)
    (out : List (List DomainInfo)) (hbs : 0 < bs)
    (hrun : MessageProcessor msgs bs = .ok out) :
    out.flatten = (msgs.map okRecords).flatten ∧
    (∀ b ∈ out.dropLast, bs ≤ b.length) ∧
    (∀ b ∈ out, b ≠ []) := by
  obtain ⟨fresh, h1, h2, h3, h4⟩ := messageProcessorGo_spec bs hbs msgs [] [] out hrun
  rw [List.nil_append] at h1
  subst h1
  exact ⟨by simpa using h2, h3, h4⟩

/-- C3 amended, witnessed on one frame with one domain and batchSize one:
the single emitted batch carries the extracted record, is non-empty and
meets the size bound. -/
theorem claim_C3_amended_witness :
    ([[mkRecordM "a.com" false]] : List (List DomainInfo)).flatten =
      ([RawMessage.parsed (mkFrame ["a.com"])].map okRecords).flatten ∧
    (∀ b ∈ ([[mkRecordM "a.com" false]] : List (List DomainInfo)).dropLast,
      1 ≤ b.length) ∧
    (∀ b ∈ ([[mkRecordM "a.com" false]] : List (List DomainInfo)), b ≠ []) :=
  claim_C3_amended 1 [.parsed (mkFrame ["a.com"])] [[mkRecordM "a.com" false]]
    (by decide) rfl

/-- C4 counterexample: the single-label domain localhost is not apex, yet
the row prepared for insertion carries an empty parent_domain, not the last
two labels of the domain joined with a dot as the claim states for every
non-apex record. -/
theorem claim_C4_counterexample :
    isApexDomain "localhost" = false ∧
    (prepareRow { Domain := "localhost" }).ParentDomain = "" ∧
    claimParentDomain "localhost" = "localhost" ∧
    (prepareRow { Domain := "localhost" }).ParentDomain ≠
      claimParentDomain "localhost" :=
  ⟨rfl, rfl, rfl, by decide⟩

/-- C4 amended: for every record prepared for insertion, is_apex holds iff
the label count is two, an apex row has an empty parent_domain, a row with
more than two labels gets the last two labels joined (a suffix of the
domain), and a row with at most two labels — including non-apex single
label domains — gets the empty parent_domain. -/
theorem claim_C4_amended (info : DomainInfo) :
    ((prepareRow info).IsApex = true ↔ (goSplitDot info.Domain).length = 2) ∧
    ((prepareRow info).IsApex = true → (prepareRow info).ParentDomain = "") ∧
    (2 < (goSplitDot info.Domain).length →
      (prepareRow info).ParentDomain = claimParentDomain info.Domain ∧
      List.IsSuffix (prepareRow info).ParentDomain.data info.Domain.data) ∧
    ((goSplitDot info.Domain).length ≤ 2 → (prepareRow info).ParentDomain = "") := by
  have hap : (prepareRow info).IsApex = isApexDomain info.Domain := rfl
  have hpd : (prepareRow info).ParentDomain = getParentDomain info.Domain := rfl
  refine ⟨?_, ?_, ?_, ?_⟩
  · rw [hap]
    exact isApexDomain_iff info.Domain
  · intro h
    rw [hap, isApexDomain_iff] at h
    rw [hpd, getParentDomain, if_neg (by omega)]
  · intro h
    refine ⟨?_, ?_⟩
    · rw [hpd, getParentDomain, claimParentDomain, if_pos h]
    · rw [hpd]
      exact getParentDomain_suffix info.Domain
  · intro h
    rw [hpd, getParentDomain, if_neg (by omega)]

/-- C4 amended, witnessed on a concrete three-label domain: the prepared
row gets the last two labels as parent, a suffix of the domain. -/
theorem claim_C4_amended_witness :
    (prepareRow { Domain := "a.b.c" }).ParentDomain = claimParentDomain "a.b.c" ∧
    List.IsSuffix (prepareRow { Domain := "a.b.c" }).ParentDomain.data
      ("a.b.c" : String).data :=
  (claim_C4_amended { Domain := "a.b.c" }).2.2.1 (by decide)

theorem prepareRow_Domain (r : DomainInfo) : (prepareRow r).Domain = r.Domain := rfl

theorem findRow_grow (store : Store) (p : DomainInfo) (d : String)
    (h : findRow store d = none) :
    findRow (insertOrIgnore store p) d =
      (if p.Domain == d then some p else none) := by
  rw [insertOrIgnore]
  by_cases hany : store.any (fun r => r.Domain == p.Domain)
  · rw [if_pos hany]
    by_cases hd : p.Domain == d
    · obtain ⟨r, hr, hrd⟩ := List.any_eq_true.mp hany
      have : r.Domain == d := by
        rw [beq_iff_eq] at hrd hd ⊢
        rw [hrd, hd]
      have hcontra := List.find?_eq_none.mp h r hr
      exact absurd this (by simpa using hcontra)
    · simp only [hd, if_false]
      exact h
  · rw [if_neg hany, findRow, List.find?_append]
    rw [findRow] at h
    rw [h]
    by_cases hd : p.Domain == d
    · simp [List.find?, hd]
    · simp [List.find?, hd]

theorem findRow_keep (store : Store) (p x : DomainInfo) (d : String)
    (h : findRow store d = some x) :
    findRow (insertOrIgnore store p) d = some x := by
  rw [insertOrIgnore]
  by_cases hany : store.any (fun r => r.Domain == p.Domain)
  · rw [if_pos hany]
    exact h
  · rw [if_neg hany, findRow, List.find?_append]
    rw [findRow] at h
    rw [h]
    rfl

theorem findRow_insertAll (rs : List DomainInfo) (store : Store) (d : String) :
    findRow (rs.foldl (fun s info => insertOrIgnore s (prepareRow info)) store) d =
      match findRow store d with
      | some x => some x
      | none => (rs.find? (fun r => r.Domain == d)).map prepareRow := by
  induction rs generalizing store with
  | nil =>
    cases hfind : findRow store d <;> simp [hfind]
  | cons r rest ih =>
    rw [List.foldl_cons, ih]
    cases hfind : findRow store d with
    | some x =>
      rw [findRow_keep store (prepareRow r) x d hfind]
    | none =>
      rw [findRow_grow store (prepareRow r) d hfind, prepareRow_Domain]
      by_cases hd : r.Domain == d
      · simp [hd, List.find?_cons_of_pos]
      · rw [List.find?_cons_of_neg _ (by simpa using hd)]
        simp [hd]

theorem nodup_insertOrIgnore (store : Store) (p : DomainInfo)
    (h : (store.map (fun r => r.Domain)).Nodup) :
    ((insertOrIgnore store p).map (fun r => r.Domain)).Nodup := by
  rw [insertOrIgnore]
  by_cases hany : store.any (fun r => r.Domain == p.Domain)
  · rw [if_pos hany]
    exact h
  · rw [if_neg hany, List.map_append]
    refine List.Nodup.append h (List.nodup_singleton _) ?_
    intro a ha hb
    rcases List.mem_map.mp ha with ⟨r, hr, hrd⟩
    rcases List.mem_singleton.mp hb with rfl
    rw [List.any_eq_true] at hany
    exact hany ⟨r, hr, by rw [beq_iff_eq, hrd]⟩

theorem nodup_insertAll (rs : List DomainInfo) (store : Store)
    (h : (store.map (fun r => r.Domain)).Nodup) :
    (((rs.foldl (fun s info => insertOrIgnore s (prepareRow info)) store)).map
      (fun r => r.Domain)).Nodup := by
  induction rs generalizing store with
  | nil => exact h
  | cons r rest ih =>
    rw [List.foldl_cons]
    exact ih _ (nodup_insertOrIgnore store (prepareRow r) h)

theorem insertBatch_flatten (batches : List (List DomainInfo)) (store : Store) :
    batches.foldl insertBatch store =
      batches.flatten.foldl (fun s info => insertOrIgnore s (prepareRow info)) store := by
  induction batches generalizing store with
  | nil => rfl
  | cons b bs ih =>
    rw [List.foldl_cons, List.flatten_cons, List.foldl_append, ih]
    rfl

/-- C5 confirmed: across any sequence of inserted batches, the domain
column is a unique key; the stored row for a domain is the prepared version
of the first record carrying that domain (first-write-wins, a later record
with the same domain is ignored); and inserting only ever appends rows, so
no operation updates or deletes an existing row. -/
theorem claim_C5_first_write_wins (batches : List (List DomainInfo)) :
    (((batches.foldl insertBatch []).map (fun r => r.Domain)).Nodup ∧
      ∀ d, findRow (batches.foldl insertBatch []) d =
        (batches.flatten.find? (fun r => r.Domain == d)).map prepareRow) ∧
    ∀ (store : Store) (b : List DomainInfo),
      ∃ tail, insertBatch store b = store ++ tail := by
  refine ⟨⟨?_, ?_⟩, ?_⟩
  · rw [insertBatch_flatten]
    exact nodup_insertAll batches.flatten [] (by simp)
  · intro d
    rw [insertBatch_flatten, findRow_insertAll]
    rfl
  · intro store b
    rw [insertBatch]
    induction b generalizing store with
    | nil => exact ⟨[], by simp⟩
    | cons r rest ih =>
      rw [List.foldl_cons]
      obtain ⟨tail, htail⟩ := ih (insertOrIgnore store (prepareRow r))
      rw [htail, insertOrIgnore]
      by_cases hany : store.any (fun x => x.Domain == (prepareRow r).Domain)
      · rw [if_pos hany]
        exact ⟨tail, rfl⟩
      · rw [if_neg hany]
        exact ⟨[prepareRow r] ++ tail, by simp⟩

/-- C6: evaluating DbInsertWorker on a batch whose insert fails in all
three attempts: each attempt rolls back, logs the retry with its error and
sleeps two seconds, nothing is committed — and no final error log is
emitted, because the short variable declaration inside the loop shadows the
err the final check reads; a batch whose first attempt succeeds is
committed immediately. -/
theorem claim_C6_no_final_error_log :
    DbInsertWorkerBatch (fun _ => .insertError) =
      [.rolledBack, .logRetry 1, .sleepTwoSeconds,
       .rolledBack, .logRetry 2, .sleepTwoSeconds,
       .rolledBack, .logRetry 3, .sleepTwoSeconds] ∧
    WorkerEvent.logFinalError ∉ DbInsertWorkerBatch (fun _ => .insertError) ∧
    WorkerEvent.committed ∉ DbInsertWorkerBatch (fun _ => .insertError) ∧
    DbInsertWorkerBatch (fun _ => .success) = [.committed] :=
  ⟨rfl, by decide, by decide, rfl⟩

/-- C7 counterexample: five requests of one IP inside the window are all
admitted; in particular a request arriving while the stored count is two is
admitted (and the count moves to three), refuting that rejection first
occurs once the count reaches two. -/
theorem claim_C7_counterexample :
    runRequests 60 none [0, 0, 0, 0, 0] =
      [.admitted, .admitted, .admitted, .admitted, .admitted] ∧
    RateLimit 60 (some ⟨2, 0⟩) 0 = (.admitted, ⟨3, 0⟩) :=
  ⟨rfl, rfl⟩

theorem count_le_allowedCount (c : Int) (hc1 : 1 ≤ c) (hc2 : c ≤ 63) :
    c ≤ allowedCount c := by
  rw [allowedCount, if_neg (by omega), if_pos (by omega)]
  have hk : ((c - 1).toNat : Int) = c - 1 := Int.toNat_of_nonneg (by omega)
  have h2 : (c - 1).toNat < 2 ^ (c - 1).toNat := Nat.lt_two_pow _
  have h3 : (((c - 1).toNat : Nat) : Int) < ((2 ^ (c - 1).toNat : Nat) : Int) := by
    exact_mod_cast h2
  push_cast at h3
  omega

theorem allowedCount_overflow (c : Int) (hc : 64 ≤ c) :
    allowedCount c = minInt64 := by
  rw [allowedCount, if_neg (by omega), if_neg (by omega)]

theorem runRequests_window (resetTime t0 : Int) :
    ∀ (times : List Int), (∀ t ∈ times, ¬ t - t0 > resetTime) →
      ∀ (c : Int), 1 ≤ c → c ≤ 64 →
        runRequests resetTime (some ⟨c, t0⟩) times =
          (List.range times.length).map
            (fun (i : Nat) => if c + (i : Int) ≤ 63 then RateDecision.admitted
              else RateDecision.rejected429) := by
  intro times
  induction times with
  | nil => intro _ c _ _; rfl
  | cons now rest ih =>
    intro hw c hc1 hc2
    have hwnow : ¬ now - t0 > resetTime := hw now (List.mem_cons_self now rest)
    have hwrest : ∀ t ∈ rest, ¬ t - t0 > resetTime :=
      fun t ht => hw t (List.mem_cons_of_mem now ht)
    rw [List.length_cons, List.range_succ_eq_map, List.map_cons, List.map_map]
    by_cases hc : c ≤ 63
    · have hstep : RateLimit resetTime (some ⟨c, t0⟩) now =
          (.admitted, ⟨c + 1, t0⟩) := by
        simp only [RateLimit]
        rw [if_neg hwnow, if_neg (not_lt.mpr (count_le_allowedCount c hc1 hc))]
      simp only [runRequests, hstep]
      rw [ih hwrest (c + 1) (by omega) (by omega)]
      rw [if_pos (show c + ((0 : Nat) : Int) ≤ 63 by push_cast; omega)]
      congr 1
      apply List.map_congr_left
      intro i _
      simp only [Function.comp_apply]
      apply if_congr ?_ rfl rfl
      push_cast
      omega
    · have hstep : RateLimit resetTime (some ⟨c, t0⟩) now =
          (.rejected429, ⟨c, t0⟩) := by
        simp only [RateLimit]
        rw [if_neg hwnow,
          if_pos (by rw [allowedCount_overflow c (by omega), minInt64]; omega)]
      simp only [runRequests, hstep]
      rw [ih hwrest c hc1 hc2]
      rw [if_neg (show ¬ c + ((0 : Nat) : Int) ≤ 63 by push_cast; omega)]
      congr 1
      apply List.map_congr_left
      intro i _
      simp only [Function.comp_apply]
      apply if_congr ?_ rfl rfl
      push_cast
      omega

/-- C7 amended: the first request of an IP is admitted with a fresh entry;
an entry older than resetTime is reset and the request admitted; within the
window, rejection happens exactly when count exceeds the budget computed as
int of math.Pow of 2 and count - 1: for counts one through 63 the budget is
the exact power of two, which is at least the count, so the request is
admitted and the count incremented — in particular a request arriving at
count two is admitted, not rejected; from count 64 on the float64 power
overflows the conversion to int, which yields the smallest int64 on the gc
amd64 target, so the check fires and the request is rejected with 429 and
the entry left unchanged. Hence a single IP gets its first 64 in-window
requests admitted and is rejected from the 65th request onward: rejection
first occurs once count reaches 64, not two. -/
theorem claim_C7_amended (resetTime now : Int) (data : VisitData) :
    RateLimit resetTime none now = (.admitted, ⟨1, now⟩) ∧
    (now - data.lastUpdate > resetTime →
      RateLimit resetTime (some data) now = (.admitted, ⟨1, now⟩)) ∧
    (¬ now - data.lastUpdate > resetTime → 1 ≤ data.count → data.count ≤ 63 →
      RateLimit resetTime (some data) now =
        (.admitted, ⟨data.count + 1, data.lastUpdate⟩)) ∧
    (¬ now - data.lastUpdate > resetTime → 64 ≤ data.count →
      RateLimit resetTime (some data) now = (.rejected429, data)) ∧
    (∀ (t0 : Int) (ts : List Int), (∀ t ∈ ts, ¬ t - t0 > resetTime) →
      runRequests resetTime none (t0 :: ts) =
        RateDecision.admitted ::
          (List.range ts.length).map
            (fun (i : Nat) => if 1 + (i : Int) ≤ 63 then RateDecision.admitted
              else RateDecision.rejected429)) := by
  refine ⟨rfl, ?_, ?_, ?_, ?_⟩
  · intro h
    simp only [RateLimit]
    rw [if_pos h]
  · intro h hc1 hc2
    simp only [RateLimit]
    rw [if_neg h, if_neg (not_lt.mpr (count_le_allowedCount data.count hc1 hc2))]
  · intro h hc
    simp only [RateLimit]
    rw [if_neg h,
      if_pos (by rw [allowedCount_overflow data.count (by omega), minInt64]; omega)]
  · intro t0 ts hts
    have h := runRequests_window resetTime t0 ts hts 1 (by omega) (by omega)
    simp only [runRequests, RateLimit]
    rw [h]

/-- C7 amended, witnessed at the overflow boundary: an entry with count 64
at instant zero, queried at instant zero inside a sixty second window, is
rejected, while the generic clauses hold at the same concrete instants. -/
theorem claim_C7_amended_witness :
    RateLimit 60 none 0 = (.admitted, ⟨1, 0⟩) ∧
    ((0 : Int) - (0 : Int) > 60 →
      RateLimit 60 (some ⟨64, 0⟩) 0 = (.admitted, ⟨1, 0⟩)) ∧
    (¬ (0 : Int) - (0 : Int) > 60 → (1 : Int) ≤ 64 → (64 : Int) ≤ 63 →
      RateLimit 60 (some ⟨64, 0⟩) 0 = (.admitted, ⟨64 + 1, 0⟩)) ∧
    (¬ (0 : Int) - (0 : Int) > 60 → (64 : Int) ≤ 64 →
      RateLimit 60 (some ⟨64, 0⟩) 0 = (.rejected429, ⟨64, 0⟩)) ∧
    (∀ (t0 : Int) (ts : List Int), (∀ t ∈ ts, ¬ t - t0 > 60) →
      runRequests 60 none (t0 :: ts) =
        RateDecision.admitted ::
          (List.range ts.length).map
            (fun (i : Nat) => if 1 + (i : Int) ≤ 63 then RateDecision.admitted
              else RateDecision.rejected429)) :=
  claim_C7_amended 60 0 ⟨64, 0⟩

theorem likeWwwDot_of_beginsWithWww (s : String) (h : beginsWithWww s = true) :
    likeWwwDot s = true := by
  rw [beginsWithWww, beq_iff_eq] at h
  rw [likeWwwDot, h]
  rfl

/-- C8 confirmed: every domain returned by the names query comes from a
stored row whose is_apex flag is set, and never begins with www followed by
a dot; the pagination drops (page - 1) * size filtered rows and keeps size
of them, so page two of size ten over the twentyfive-row alphabetical store
returns exactly rows eleven through twenty. -/
theorem claim_C8_domains_endpoint (store : Store) (page size : Nat) (d : String)
    (hd : d ∈ FetchDomainNamesFromDatabase store page size) :
    ((∃ r ∈ store, r.Domain = d ∧ r.IsApex = true) ∧ beginsWithWww d = false) ∧
    FetchDomainNamesFromDatabase c8Store 2 10 =
      ["d11.com", "d12.com", "d13.com", "d14.com", "d15.com",
       "d16.com", "d17.com", "d18.com", "d19.com", "d20.com"] := by
  refine ⟨?_, rfl⟩
  rw [FetchDomainNamesFromDatabase] at hd
  have hd2 := List.mem_of_mem_drop (List.mem_of_mem_take hd)
  rcases List.mem_map.mp hd2 with ⟨r, hr, hrd⟩
  have hfilter := List.mem_filter.mp hr
  have hflags := Bool.and_eq_true_iff.mp hfilter.2
  refine ⟨⟨r, hfilter.1, hrd, hflags.1⟩, ?_⟩
  by_cases hb : beginsWithWww d = true
  · have := likeWwwDot_of_beginsWithWww d hb
    rw [← hrd] at this
    rw [this] at hflags
    simpa using hflags.2
  · simpa using hb

/-- C8, witnessed at row eleven of the scenario store: d11.com is returned
on page two, comes from an apex row, and does not begin with www dot. -/
theorem claim_C8_domains_endpoint_witness :
    ((∃ r ∈ c8Store, r.Domain = "d11.com" ∧ r.IsApex = true) ∧
      beginsWithWww "d11.com" = false) ∧
    FetchDomainNamesFromDatabase c8Store 2 10 =
      ["d11.com", "d12.com", "d13.com", "d14.com", "d15.com",
       "d16.com", "d17.com", "d18.com", "d19.com", "d20.com"] :=
  claim_C8_domains_endpoint c8Store 2 10 "d11.com" (by decide)

/-- C9 counterexample: on a store of two records the cert-updates handler
writes the header and then a single body chunk that is the entire
materialized query result (both records at once), so the body is one
buffered chunk of the whole result rather than incremental chunks. -/
theorem claim_C9_counterexample :
    GetCertUpdatesHandler c9Store 1 10 =
      [.header 200 "application/json",
       .bodyChunk (FetchCertUpdatesFromDatabase c9Store 1 10)] ∧
    (FetchCertUpdatesFromDatabase c9Store 1 10).length = 2 :=
  ⟨rfl, by decide⟩

/-- C9 amended: every handler writes the 200 status with the JSON content
type as its first response event, before any body chunk; but the body each
handler then emits is a single chunk holding the entire materialized query
result, because the fetch functions return the whole page as one slice that
the handler goroutine sends on the channel in one step. -/
theorem claim_C9_amended (store : Store) (page size : Nat) (domain : String) :
    ((GetDomainNamesHandler store page size).head? =
      some (.header 200 "application/json")) ∧
    ((GetCertUpdatesHandler store page size).head? =
      some (.header 200 "application/json")) ∧
    ((GetSubdomainsHandler store domain).head? =
      some (.header 200 "application/json")) ∧
    (GetCertUpdatesHandler store page size).tail =
      [.bodyChunk (FetchCertUpdatesFromDatabase store page size)] ∧
    (GetDomainNamesHandler store page size).tail =
      [.bodyChunk (FetchDomainNamesFromDatabase store page size)] ∧
    (GetSubdomainsHandler store domain).tail =
      [.bodyChunk [FetchDomainWithSubdomains store domain]] :=
  ⟨rfl, rfl, rfl, rfl, rfl, rfl⟩

end Swim
